import Mathlib

/-!
Shallow embedding of the `os-linkchecker` crawler core
(`src/cache.py`, `src/scheduler.py`, `src/crawl.py`).

Python strings are modelled as Lean `String`s; operations that Python
performs character-wise (`str.lower`, slicing `s[:n]`, substring `in`)
are modelled on the underlying character list.  `urlparse` is an external
stdlib collaborator: a URL is modelled as the raw string together with its
parsed components (`scheme`, `netloc`, `path`, `query`, `fragment`).
The network is modelled as an oracle value describing the outcome of the
single `session.get` a code path performs.
-/

namespace LinkChecker

/-- Python `s.lower()` (character-wise lowercasing). -/
def pyLower (s : String) : String := ⟨s.data.map Char.toLower⟩

/-- Python `s[:n]` (truncation to the first `n` characters). -/
def pyTruncate (n : Nat) (s : String) : String := ⟨s.data.take n⟩

/-- Python `s.rstrip("/")` (drop all trailing slash characters). -/
def rstripSlash (s : String) : String :=
  ⟨(s.data.reverse.dropWhile (· == '/')).reverse⟩

/-- Python `needle in hay` for strings (substring containment). -/
def pyContains (hay needle : String) : Bool :=
  decide (needle.data <:+: hay.data)

/-- A URL string together with its `urlparse` decomposition. -/
structure Url where
  raw : String
  scheme : String
  netloc : String
  path : String
  query : String
  fragment : String
deriving DecidableEq, Repr

/-- Model of `crawl._norm_url`: comparison normalization — lowercase scheme/host,
`p.path or "/"` then strip trailing slashes, keep query, drop fragment. -/
def norm_url (u : Url) : String :=
  let scheme := pyLower u.scheme
  let netloc := pyLower u.netloc
  let path := rstripSlash (if u.path = "" then "/" else u.path)
  let query := if u.query = "" then "" else "?" ++ u.query
  scheme ++ "://" ++ netloc ++ path ++ query

/-- Model of `crawl._norm_link_target`: cache-key normalization — lowercase
scheme/host, `p.path or "/"` then strip trailing slashes, drop both
query and fragment. -/
def norm_link_target (u : Url) : String :=
  let scheme := pyLower u.scheme
  let netloc := pyLower u.netloc
  let path := rstripSlash (if u.path = "" then "/" else u.path)
  scheme ++ "://" ++ netloc ++ path

/-- Model of `crawl.is_cascade_login`: empty pattern list → `False`; empty-string
patterns are skipped; otherwise case-insensitive substring match. -/
def is_cascade_login (url : String) (patterns : List String) : Bool :=
  if patterns = [] then false
  else
    let u := pyLower url
    patterns.any fun pat => !(pat = "") && pyContains u (pyLower pat)

/-! ### `src/cache.py` — LRUCache

The `OrderedDict` store is modelled as an association list whose head is
the least-recently-used entry and whose last element is the
most-recently-used one (Python insertion order; `popitem(last=False)`
removes the head). -/

/-- First value stored under `k` (Python `key in store` / `store[key]`). -/
def lookupKey [DecidableEq K] (k : K) : List (K × V) → Option V
  | [] => none
  | (k', v) :: rest => if k' = k then some v else lookupKey k rest

/-- Remove the entry stored under `k` (Python `store.pop(key)`). -/
def removeKey [DecidableEq K] (k : K) : List (K × V) → List (K × V)
  | [] => []
  | (k', v) :: rest => if k' = k then rest else (k', v) :: removeKey k rest

/-- State of `cache.LRUCache`: bounded store plus statistics counters. -/
structure LRUCache (K V : Type) where
  max_size : Nat
  store : List (K × V)
  accesses : Nat
  hits : Nat
  misses : Nat
deriving Repr

/-- A freshly constructed `LRUCache(max_size=n)` (empty store, zero counters). -/
def LRUCache.empty (K V : Type) (n : Nat) : LRUCache K V :=
  { max_size := n, store := [], accesses := 0, hits := 0, misses := 0 }

/-- Model of `LRUCache.get`: count the access; on a hit count it, move the key to
most-recently-used and return the value; on a miss count it and return
`none`. -/
def LRUCache.get [DecidableEq K] (c : LRUCache K V) (k : K) :
    Option V × LRUCache K V :=
  match lookupKey k c.store with
  | some v =>
      (some v,
       { c with
           accesses := c.accesses + 1
           hits := c.hits + 1
           store := removeKey k c.store ++ [(k, v)] })
  | none =>
      (none,
       { c with
           accesses := c.accesses + 1
           misses := c.misses + 1 })

/-- Model of `LRUCache.set`: drop an existing binding of the key, append the new
binding as most-recently-used, then evict the least-recently-used entry
(the head) if the store now exceeds `max_size`. -/
def LRUCache.set [DecidableEq K] (c : LRUCache K V) (k : K) (v : V) :
    LRUCache K V :=
  let s1 := if (lookupKey k c.store).isSome then removeKey k c.store else c.store
  let s2 := s1 ++ [(k, v)]
  { c with store := if s2.length > c.max_size then s2.tail else s2 }

/-- Statistics returned by the `LRUCache.stats` property
(Python floats modelled as rationals). -/
structure CacheStats where
  accesses : ℚ
  hits : ℚ
  misses : ℚ
  hit_ratio : ℚ
deriving Repr

/-- Model of the `LRUCache.stats` property: the three counters plus
`hit_ratio = hits/accesses if accesses > 0 else 0`. -/
def LRUCache.stats (c : LRUCache K V) : CacheStats :=
  { accesses := (c.accesses : ℚ)
    hits := (c.hits : ℚ)
    misses := (c.misses : ℚ)
    hit_ratio := if c.accesses > 0 then (c.hits : ℚ) / (c.accesses : ℚ) else 0 }

/-- One cache operation of a `get`/`set` call sequence. -/
inductive CacheOp (K V : Type) where
  | getOp (k : K)
  | setOp (k : K) (v : V)

/-- Apply one cache operation to a cache state. -/
def applyOp [DecidableEq K] (c : LRUCache K V) : CacheOp K V → LRUCache K V
  | .getOp k => (c.get k).2
  | .setOp k v => c.set k v

/-- Apply a sequence of cache operations in order. -/
def applyOps [DecidableEq K] (ops : List (CacheOp K V)) (c : LRUCache K V) :
    LRUCache K V :=
  ops.foldl applyOp c

/-- Insert the keys of `ks` in order, all with value `v`
(the `N+1` distinct `set`s of the LRU law). -/
def insertAll [DecidableEq K] (v : V) (ks : List K) (c : LRUCache K V) :
    LRUCache K V :=
  ks.foldl (fun c k => c.set k v) c

/-! ### `src/scheduler.py` -/

/-- Model of `scheduler._path_depth`: number of `/` characters in
`urlparse(url).path or "/"`, clamped below by 0. -/
def path_depth (u : Url) : Nat :=
  max 0 ((if u.path = "" then "/" else u.path).data.count '/')

/-- Model of `scheduler._priority_score`: `(pathDepth + 2·hasQuery, len(url))`,
smaller = higher priority. -/
def priority_score (u : Url) : Nat × Nat :=
  let score := path_depth u + (if u.query = "" then 0 else 2)
  (score, u.raw.length)

/-- Lexicographic comparison of Python `(int, int)` tuples, as used by
`sorted(..., key=_priority_score)`. -/
def tupleLE (a b : Nat × Nat) : Bool :=
  decide (a.1 < b.1) || (decide (a.1 = b.1) && decide (a.2 ≤ b.2))

/-- Model of `scheduler.order_urls`: `mode or "fifo"` lowercased; `"priority"`
stable-sorts by `_priority_score`, anything else keeps the input order. -/
def order_urls (urls : List Url) (mode : String) : List Url :=
  let m := pyLower (if mode = "" then "fifo" else mode)
  if m = "priority" then
    urls.mergeSort (fun a b => tupleLE (priority_score a) (priority_score b))
  else
    urls

/-! ### `src/crawl.py` — link checking -/

/-- Outcome of the single `session.get` a code path performs: either a
response (final status after redirects, final URL, length of the redirect
history) or a raised `requests.RequestException` (exception class name and
message). -/
inductive HttpOutcome where
  | success (status : Nat) (finalUrl : String) (historyLen : Nat)
  | failure (errKind : String) (msg : String)
deriving DecidableEq, Repr

/-- The `status` slot of a check-result tuple: an HTTP status code `int`,
or the empty string `""` used on transport failure. -/
inductive StatusVal where
  | code (n : Nat)
  | empty
deriving DecidableEq, Repr

/-- The `(violation_type, status, final_url, note)` tuple returned by
`check_link` (`violation_type` is the string `"ok"` or `"broken_link"`). -/
structure CheckResult where
  verdict : String
  status : StatusVal
  finalUrl : String
  note : String
deriving DecidableEq, Repr

/-- The checker configuration consumed by `check_link`
(`cfg["checker"].get("treat_redirect_as_ok", True)`). -/
structure CheckerCfg where
  treat_redirect_as_ok : Bool := true
deriving DecidableEq, Repr

/-- The classification body of `crawl.check_link` (lines 122–152): the
branch on the response status, or the `except requests.RequestException`
handler producing `("broken_link", "", "", f"{type(e).__name__}: {str(e)[:120]}")`. -/
def classify_response (treat_redirect_as_ok : Bool) : HttpOutcome → CheckResult
  | .success status finalUrl hist =>
      if status ≥ 400 then
        ⟨"broken_link", .code status, finalUrl, "status>=400"⟩
      else if 300 ≤ status ∧ status < 400 then
        if treat_redirect_as_ok then
          ⟨"ok", .code status, finalUrl, "redirect ok"⟩
        else
          ⟨"broken_link", .code status, finalUrl, "redirect treated as broken"⟩
      else
        ⟨"ok", .code status, finalUrl,
          if hist ≠ 0 then "redirect chain len=" ++ toString hist else "ok"⟩
  | .failure errKind msg =>
      ⟨"broken_link", .empty, "", errKind ++ ": " ++ pyTruncate 120 msg⟩

/-- Model of `crawl.check_link`: cache lookup under the cache-key form first (a hit
is returned verbatim with no request); otherwise classify the HTTP outcome
and, when a cache is supplied, store the tuple under the key before
returning.  The third component records whether an HTTP request was
issued. -/
def check_link (url : Url) (net : HttpOutcome) (cfg : CheckerCfg)
    (cache : Option (LRUCache String CheckResult)) :
    CheckResult × Option (LRUCache String CheckResult) × Bool :=
  let key := norm_link_target url
  match cache with
  | none => (classify_response cfg.treat_redirect_as_ok net, none, true)
  | some c =>
      match c.get key with
      | (some cached, c1) => (cached, some c1, false)
      | (none, c1) =>
          let result := classify_response cfg.treat_redirect_as_ok net
          (result, some (c1.set key result), true)

/-! ### `src/crawl.py` — per-link violation classification in `_worker` -/

/-- One row of the shared `violations` list
(`[page_url, link_url, violation_type, status, final_url, note]`). -/
structure ViolationRow where
  page_url : String
  link_url : String
  violation_type : String
  status : StatusVal
  final_url : String
  note : String
deriving DecidableEq, Repr

/-- The body of the per-link loop in `_worker` (lines 332–361): skip
non-HTTP(S) targets, classify cascade-login matches without calling
`check_link`, otherwise call `check_link` and record a `broken_link`
violation if that is the verdict.  The third component records whether
`check_link` was invoked for this link. -/
def process_link (page_url : String) (link : Url) (patterns : List String)
    (cfg : CheckerCfg) (net : HttpOutcome)
    (cache : Option (LRUCache String CheckResult)) :
    List ViolationRow × Option (LRUCache String CheckResult) × Bool :=
  if ¬(link.scheme = "http" ∨ link.scheme = "https") then
    ([], cache, false)
  else if is_cascade_login link.raw patterns then
    ([⟨page_url, link.raw, "cascade_login", .empty, "", "cascade login link"⟩],
     cache, false)
  else
    let res := check_link link net cfg cache
    if res.1.verdict = "broken_link" then
      ([⟨page_url, link.raw, "broken_link", res.1.status, res.1.finalUrl,
          res.1.note⟩],
       res.2.1, true)
    else
      ([], res.2.1, true)

/-! ### `src/crawl.py` — page-level pipeline (cap, then check) -/

/-- The `{"links": ..., "count": ...}` dict returned by
`_extract_internal_links` (the HTML extraction itself is an external
collaborator of the checked pipeline). -/
structure ExtractionInfo where
  links : List Url
  count : Nat
deriving Repr

/-- The per-page safety limit (lines 326–327): truncate when `max_links`
is truthy (non-zero) and the occurrence list exceeds it. -/
def capped_links (links : List Url) (max_links : Nat) : List Url :=
  if max_links ≠ 0 ∧ links.length > max_links then links.take max_links else links

/-- Page-level result of the checking loop. -/
structure PageOutcome where
  link_count : Nat
  violations : List ViolationRow
  violations_count : Nat
deriving Repr

/-- Fold step of the per-link loop: run `process_link` on one link,
threading the cache and accumulating the page's violation rows. -/
def pageStep (page_url : String) (patterns : List String) (cfg : CheckerCfg)
    (oracle : Url → HttpOutcome)
    (acc : List ViolationRow × Option (LRUCache String CheckResult))
    (link : Url) :
    List ViolationRow × Option (LRUCache String CheckResult) :=
  let res := process_link page_url link patterns cfg (oracle link) acc.2
  (acc.1 ++ res.1, res.2.1)

/-- The extract→cap→check section of `_worker` (lines 315–367):
`link_count` is taken from the full extraction before the cap is applied;
the violation loop runs over the capped list only;
`violations_count = len(violations_for_page)`. -/
def process_page (page_url : String) (info : ExtractionInfo) (max_links : Nat)
    (patterns : List String) (cfg : CheckerCfg) (oracle : Url → HttpOutcome)
    (cache : Option (LRUCache String CheckResult)) :
    PageOutcome × Option (LRUCache String CheckResult) :=
  let links_for_page := capped_links info.links max_links
  let folded := links_for_page.foldl (pageStep page_url patterns cfg oracle) ([], cache)
  ({ link_count := info.count
     violations := folded.1
     violations_count := folded.1.length }, folded.2)

/-! ### `src/crawl.py` — redirect collapse and the recording section -/

/-- Lines 306–310 of `_worker`: collapse any effective redirect to a
reported `301`, otherwise report the raw status code. -/
def report_status (url final_url : Url) (raw_status : Nat) : Nat :=
  if norm_url url ≠ norm_url final_url then 301 else raw_status

/-- The locks created in `crawl_all` and passed to `_worker`. -/
inductive CrawlLock where
  | vlock
  | violock
  | plock
deriving DecidableEq, Repr

/-- The shared-state mutations of the recording section of `_worker`. -/
inductive RecordAction where
  | appendViolationRows
  | appendResultRow
  | incrementProcessed
deriving DecidableEq, Repr

/-- The recording section of `_worker` (lines 378–403), in program order,
each shared-state mutation paired with the lock it is performed under:
`violations.extend` inside `with violock`, `results.append` under no
lock, the `processed["n"]` increment inside `with plock`. -/
def recording_section (hasViolations : Bool) :
    List (RecordAction × Option CrawlLock) :=
  (if hasViolations then [(.appendViolationRows, some .violock)] else [])
    ++ [(.appendResultRow, none), (.incrementProcessed, some .plock)]

/-! ### Supporting lemmas about the LRU cache -/

@[simp]
theorem lookupKey_nil [DecidableEq K] (k : K) :
    lookupKey k ([] : List (K × V)) = none := rfl

@[simp]
theorem lookupKey_cons [DecidableEq K] (k k' : K) (v : V) (rest : List (K × V)) :
    lookupKey k ((k', v) :: rest) =
      if k' = k then some v else lookupKey k rest := rfl

@[simp]
theorem removeKey_nil [DecidableEq K] (k : K) :
    removeKey k ([] : List (K × V)) = [] := rfl

@[simp]
theorem removeKey_cons [DecidableEq K] (k k' : K) (v : V) (rest : List (K × V)) :
    removeKey k ((k', v) :: rest) =
      if k' = k then rest else (k', v) :: removeKey k rest := rfl

theorem length_removeKey_of_lookup [DecidableEq K] {k : K} :
    ∀ {s : List (K × V)} {v : V}, lookupKey k s = some v →
      (removeKey k s).length + 1 = s.length := by
  intro s
  induction s with
  | nil => intro v h; simp at h
  | cons p rest ih =>
    intro v h
    obtain ⟨k', v'⟩ := p
    by_cases hk : k' = k
    · simp [hk]
    · simp only [lookupKey_cons, if_neg hk] at h
      have := ih h
      simp [hk]
      omega

theorem lookupKey_append_of_none [DecidableEq K] {k : K} {s t : List (K × V)}
    (h : lookupKey k s = none) : lookupKey k (s ++ t) = lookupKey k t := by
  induction s with
  | nil => simp
  | cons p rest ih =>
    obtain ⟨k', v'⟩ := p
    by_cases hk : k' = k
    · simp [hk] at h
    · simp only [lookupKey_cons, if_neg hk] at h
      simpa [hk] using ih h

theorem lookupKey_tail_of_none [DecidableEq K] {k : K} {s : List (K × V)}
    (h : lookupKey k s = none) : lookupKey k s.tail = none := by
  cases s with
  | nil => simp
  | cons p rest =>
    obtain ⟨k', v'⟩ := p
    by_cases hk : k' = k
    · simp [hk] at h
    · simpa [hk] using h

theorem lookupKey_map_pair_of_not_mem [DecidableEq K] (v : V) {k : K}
    {ks : List K} (h : k ∉ ks) :
    lookupKey k (ks.map fun k' => (k', v)) = none := by
  induction ks with
  | nil => simp
  | cons a rest ih =>
    simp only [List.mem_cons, not_or] at h
    simp [Ne.symm h.1, ih h.2]

theorem LRUCache.set_max_size [DecidableEq K] (c : LRUCache K V) (k : K) (v : V) :
    (c.set k v).max_size = c.max_size := rfl

theorem LRUCache.set_counters [DecidableEq K] (c : LRUCache K V) (k : K) (v : V) :
    (c.set k v).accesses = c.accesses ∧ (c.set k v).hits = c.hits ∧
      (c.set k v).misses = c.misses := ⟨rfl, rfl, rfl⟩

theorem LRUCache.get_max_size [DecidableEq K] (c : LRUCache K V) (k : K) :
    ((c.get k).2).max_size = c.max_size := by
  unfold LRUCache.get
  rcases lookupKey k c.store <;> rfl

theorem LRUCache.get_counters [DecidableEq K] (c : LRUCache K V) (k : K) :
    (c.get k).2.accesses = c.accesses + 1 ∧
      (((c.get k).2.hits = c.hits + 1 ∧ (c.get k).2.misses = c.misses) ∨
       ((c.get k).2.hits = c.hits ∧ (c.get k).2.misses = c.misses + 1)) := by
  unfold LRUCache.get
  rcases lookupKey k c.store <;> simp

theorem LRUCache.get_of_lookup_none [DecidableEq K] (c : LRUCache K V) (k : K)
    (h : lookupKey k c.store = none) :
    (c.get k).1 = none ∧ (c.get k).2.store = c.store := by
  unfold LRUCache.get
  simp [h]

theorem LRUCache.get_promotes [DecidableEq K] (c : LRUCache K V) (k : K) (v : V)
    (h : lookupKey k c.store = some v) :
    (c.get k).1 = some v ∧ (c.get k).2.store = removeKey k c.store ++ [(k, v)] := by
  unfold LRUCache.get
  simp [h]

theorem LRUCache.set_store_of_lookup_none [DecidableEq K] (c : LRUCache K V)
    (k : K) (v : V) (h : lookupKey k c.store = none) :
    (c.set k v).store =
      if (c.store ++ [(k, v)]).length > c.max_size then (c.store ++ [(k, v)]).tail
      else c.store ++ [(k, v)] := by
  unfold LRUCache.set
  simp [h]

theorem LRUCache.set_store_length_le [DecidableEq K] (c : LRUCache K V)
    (k : K) (v : V) (h : c.store.length ≤ c.max_size) :
    (c.set k v).store.length ≤ c.max_size := by
  unfold LRUCache.set
  rcases hl : lookupKey k c.store with _ | v'
  · simp only [hl, Option.isSome_none, Bool.false_eq_true, if_false]
    split
    all_goals simp_all
  · have hrm := length_removeKey_of_lookup (k := k) (s := c.store) (v := v') hl
    simp only [hl, Option.isSome_some, if_true]
    split
    all_goals simp_all
    all_goals omega

theorem LRUCache.set_evicts_lru [DecidableEq K] (c : LRUCache K V) (k : K) (v : V)
    (hmiss : lookupKey k c.store = none) (hfull : c.store.length = c.max_size)
    (hpos : 0 < c.max_size) :
    (c.set k v).store = c.store.tail ++ [(k, v)] := by
  rw [LRUCache.set_store_of_lookup_none c k v hmiss]
  rw [if_pos (by simp; omega)]
  cases cs : c.store with
  | nil => rw [cs] at hfull; simp at hfull; omega
  | cons a t => simp

theorem insertAll_cons [DecidableEq K] (v : V) (k : K) (rest : List K)
    (c : LRUCache K V) :
    insertAll v (k :: rest) c = insertAll v rest (c.set k v) := rfl

theorem insertAll_append [DecidableEq K] (v : V) (ks ks' : List K)
    (c : LRUCache K V) :
    insertAll v (ks ++ ks') c = insertAll v ks' (insertAll v ks c) := by
  simp [insertAll, List.foldl_append]

theorem insertAll_fresh [DecidableEq K] (v : V) :
    ∀ (ks : List K) (c : LRUCache K V),
      (∀ k ∈ ks, lookupKey k c.store = none) → ks.Nodup →
      c.store.length + ks.length ≤ c.max_size →
      (insertAll v ks c).store = c.store ++ ks.map (fun k => (k, v)) ∧
        (insertAll v ks c).max_size = c.max_size := by
  intro ks
  induction ks with
  | nil => intro c _ _ _; simp [insertAll]
  | cons k rest ih =>
    intro c hfresh hnd hlen
    have hk : lookupKey k c.store = none := hfresh k (by simp)
    have hset : (c.set k v).store = c.store ++ [(k, v)] := by
      rw [LRUCache.set_store_of_lookup_none c k v hk]
      rw [if_neg]
      simp only [List.length_append, List.length_cons, List.length_nil]
      simp at hlen
      omega
    have hnd' : rest.Nodup := hnd.of_cons
    have hkrest : k ∉ rest := (List.nodup_cons.mp hnd).1
    have hfresh' : ∀ k' ∈ rest, lookupKey k' (c.set k v).store = none := by
      intro k' hk'
      rw [hset, lookupKey_append_of_none (hfresh k' (by simp [hk']))]
      have : k ≠ k' := fun he => hkrest (he ▸ hk')
      simp [this]
    have hlen' : (c.set k v).store.length + rest.length ≤ (c.set k v).max_size := by
      rw [hset, LRUCache.set_max_size]
      simp at hlen ⊢
      omega
    have := ih (c.set k v) hfresh' hnd' hlen'
    rw [insertAll_cons]
    rw [this.1, this.2, LRUCache.set_max_size, hset]
    simp

theorem insertAll_overflow [DecidableEq K] (v : V) (N : Nat) (hN : 0 < N)
    (ks : List K) (hnd : ks.Nodup) (hlen : ks.length = N + 1) :
    (insertAll v ks (LRUCache.empty K V N)).store.map Prod.fst = ks.tail := by
  have hne : ks ≠ [] := by
    intro h
    rw [h] at hlen
    simp at hlen
  obtain ⟨front, l, hks⟩ : ∃ front l, ks = front ++ [l] :=
    ⟨ks.dropLast, ks.getLast hne, (List.dropLast_append_getLast hne).symm⟩
  subst hks
  have hfl : front.length = N := by
    simp at hlen
    omega
  have hsplit := List.nodup_append.mp hnd
  have hfront_nd : front.Nodup := hsplit.1
  have hl_not_mem : l ∉ front := by
    intro hmem
    exact hsplit.2.2 hmem (by simp)
  have hfresh := insertAll_fresh v front (LRUCache.empty K V N)
    (by intro k _; simp [LRUCache.empty]) hfront_nd
    (by simp [LRUCache.empty, hfl])
  rw [insertAll_append, insertAll_cons]
  show ((insertAll v front (LRUCache.empty K V N)).set l v).store.map Prod.fst = _
  have hstore : (insertAll v front (LRUCache.empty K V N)).store =
      front.map (fun k => (k, v)) := by
    rw [hfresh.1]
    simp [LRUCache.empty]
  have hmax : (insertAll v front (LRUCache.empty K V N)).max_size = N := hfresh.2
  have hmiss : lookupKey l (insertAll v front (LRUCache.empty K V N)).store = none := by
    rw [hstore]
    exact lookupKey_map_pair_of_not_mem v hl_not_mem
  rw [LRUCache.set_store_of_lookup_none _ l v hmiss, hstore, hmax]
  rw [if_pos (by simp [hfl])]
  cases front with
  | nil =>
    simp at hfl
    omega
  | cons f0 front' =>
    simp only [List.map_cons, List.map_append, List.tail_cons, List.cons_append,
      List.map_map]
    rw [show (Prod.fst ∘ fun k : K => (k, v)) = id from rfl, List.map_id]
    simp

theorem applyOp_max_size [DecidableEq K] (c : LRUCache K V) (op : CacheOp K V) :
    (applyOp c op).max_size = c.max_size := by
  cases op with
  | getOp k => exact LRUCache.get_max_size c k
  | setOp k v => rfl

theorem applyOp_length_le [DecidableEq K] (c : LRUCache K V) (op : CacheOp K V)
    (h : c.store.length ≤ c.max_size) :
    (applyOp c op).store.length ≤ (applyOp c op).max_size := by
  rw [applyOp_max_size]
  cases op with
  | getOp k =>
    show ((c.get k).2).store.length ≤ c.max_size
    unfold LRUCache.get
    rcases hl : lookupKey k c.store with _ | v
    · simpa using h
    · have := length_removeKey_of_lookup (k := k) (s := c.store) (v := v) hl
      simp only []
      simp
      omega
  | setOp k v => exact LRUCache.set_store_length_le c k v h

theorem applyOps_length_le [DecidableEq K] :
    ∀ (ops : List (CacheOp K V)) (c : LRUCache K V),
      c.store.length ≤ c.max_size →
      (applyOps ops c).store.length ≤ (applyOps ops c).max_size := by
  intro ops
  induction ops with
  | nil => intro c h; simpa [applyOps]
  | cons op rest ih =>
    intro c h
    have hstep := applyOp_length_le c op h
    rw [applyOp_max_size] at hstep
    have hstep' : (applyOp c op).store.length ≤ (applyOp c op).max_size := by
      rw [applyOp_max_size]
      exact hstep
    simpa [applyOps, List.foldl] using ih (applyOp c op) hstep'

theorem applyOp_counter_inv [DecidableEq K] (c : LRUCache K V) (op : CacheOp K V)
    (h : c.accesses = c.hits + c.misses) :
    (applyOp c op).accesses = (applyOp c op).hits + (applyOp c op).misses := by
  cases op with
  | getOp k =>
    obtain ⟨ha, hc⟩ := LRUCache.get_counters c k
    show (c.get k).2.accesses = (c.get k).2.hits + (c.get k).2.misses
    rcases hc with ⟨h1, h2⟩ | ⟨h1, h2⟩ <;> rw [ha, h1, h2] <;> omega
  | setOp k v => exact h

theorem applyOps_counter_inv [DecidableEq K] :
    ∀ (ops : List (CacheOp K V)) (c : LRUCache K V),
      c.accesses = c.hits + c.misses →
      (applyOps ops c).accesses = (applyOps ops c).hits + (applyOps ops c).misses := by
  intro ops
  induction ops with
  | nil => intro c h; simpa [applyOps]
  | cons op rest ih =>
    intro c h
    simpa [applyOps, List.foldl] using ih (applyOp c op) (applyOp_counter_inv c op h)

theorem applyOps_max_size [DecidableEq K] :
    ∀ (ops : List (CacheOp K V)) (c : LRUCache K V),
      (applyOps ops c).max_size = c.max_size := by
  intro ops
  induction ops with
  | nil => intro c; rfl
  | cons op rest ih =>
    intro c
    calc (applyOps (op :: rest) c).max_size
        = (applyOps rest (applyOp c op)).max_size := rfl
      _ = (applyOp c op).max_size := ih _
      _ = c.max_size := applyOp_max_size c op

/-! ### Claim theorems: the LRU cache (C2, C7) -/

/-- C2: for an `LRUCache` of positive capacity `N`: (i) after any
sequence of completed operations from construction the store holds at most
`N` entries, (ii) any single `set` preserves the `≤ N` bound, (iii) a `set`
of a new key on a full cache evicts exactly the least-recently-used entry
(the head of the recency order), (iv) `get` of a present key returns it and
promotes it to most-recently-used, and (v) inserting `N+1` distinct keys
with no intervening `get`s leaves exactly the last `N` keys, i.e. evicts
exactly the first-inserted key. -/
theorem lru_cache_eviction_law (K V : Type) [DecidableEq K] (N : Nat)
    (hN : 0 < N) :
    (∀ (ops : List (CacheOp K V)),
        (applyOps ops (LRUCache.empty K V N)).store.length ≤ N)
    ∧ (∀ (c : LRUCache K V) (k : K) (v : V), c.max_size = N →
        c.store.length ≤ N → (c.set k v).store.length ≤ N)
    ∧ (∀ (c : LRUCache K V) (k : K) (v : V), c.max_size = N →
        lookupKey k c.store = none → c.store.length = N →
        (c.set k v).store = c.store.tail ++ [(k, v)])
    ∧ (∀ (c : LRUCache K V) (k : K) (v : V), lookupKey k c.store = some v →
        (c.get k).1 = some v ∧
          (c.get k).2.store = removeKey k c.store ++ [(k, v)])
    ∧ (∀ (ks : List K) (v : V), ks.Nodup → ks.length = N + 1 →
        (insertAll v ks (LRUCache.empty K V N)).store.map Prod.fst = ks.tail) := by
  refine ⟨?_, ?_, ?_, ?_, ?_⟩
  · intro ops
    have h := applyOps_length_le ops (LRUCache.empty K V N)
      (by simp [LRUCache.empty])
    rwa [applyOps_max_size ops (LRUCache.empty K V N)] at h
  · intro c k v hmax hlen
    have h := LRUCache.set_store_length_le c k v (by rw [hmax]; exact hlen)
    rwa [hmax] at h
  · intro c k v hmax hmiss hfull
    exact LRUCache.set_evicts_lru c k v hmiss (by rw [hmax]; exact hfull)
      (by rw [hmax]; exact hN)
  · intro c k v h
    exact LRUCache.get_promotes c k v h
  · intro ks v hnd hlen
    exact insertAll_overflow v N hN ks hnd hlen

/-- Witness for C2 at capacity `N = 2`: inserting the three distinct keys
`10, 11, 12` into a fresh cache evicts exactly the first key. -/
theorem lru_cache_eviction_law_w :
    0 < 2 ∧
      (insertAll 7 [10, 11, 12] (LRUCache.empty ℕ ℕ 2)).store.map Prod.fst =
        [11, 12] :=
  ⟨by decide,
   (lru_cache_eviction_law ℕ ℕ 2 (by decide)).2.2.2.2 [10, 11, 12] 7
     (by decide) (by decide)⟩

/-- C7: over any `get`/`set` sequence from construction the counter
equality `accesses = hits + misses` holds; each `get` increments `accesses`
and exactly one of `hits`/`misses`; `set` changes no counter; and
`stats.hit_ratio` is `hits/accesses` when `accesses > 0` and `0`
otherwise. -/
theorem cache_stats_law (K V : Type) [DecidableEq K] (N : Nat) :
    (∀ (ops : List (CacheOp K V)),
        (applyOps ops (LRUCache.empty K V N)).accesses =
          (applyOps ops (LRUCache.empty K V N)).hits +
            (applyOps ops (LRUCache.empty K V N)).misses)
    ∧ (∀ (c : LRUCache K V) (k : K),
        (c.get k).2.accesses = c.accesses + 1 ∧
          (((c.get k).2.hits = c.hits + 1 ∧ (c.get k).2.misses = c.misses) ∨
           ((c.get k).2.hits = c.hits ∧ (c.get k).2.misses = c.misses + 1)))
    ∧ (∀ (c : LRUCache K V) (k : K) (v : V),
        (c.set k v).accesses = c.accesses ∧ (c.set k v).hits = c.hits ∧
          (c.set k v).misses = c.misses)
    ∧ (∀ c : LRUCache K V,
        (0 < c.accesses → c.stats.hit_ratio = (c.hits : ℚ) / (c.accesses : ℚ))
        ∧ (c.accesses = 0 → c.stats.hit_ratio = 0)) := by
  refine ⟨?_, ?_, ?_, ?_⟩
  · intro ops
    exact applyOps_counter_inv ops (LRUCache.empty K V N) rfl
  · intro c k
    exact LRUCache.get_counters c k
  · intro c k v
    exact LRUCache.set_counters c k v
  · intro c
    constructor
    · intro h
      simp [LRUCache.stats, h]
    · intro h
      simp [LRUCache.stats, h]

/-- Concrete `get`/`set` sequence used by the C7 witness. -/
def opsExample : List (CacheOp ℕ ℕ) :=
  [CacheOp.getOp 1, CacheOp.setOp 1 5, CacheOp.getOp 1, CacheOp.getOp 2]

/-- Witness for C7: after a concrete `get`/`set` sequence the hit ratio is
the quotient of the hit and access counters. -/
theorem cache_stats_law_w :
    0 < (applyOps opsExample (LRUCache.empty ℕ ℕ 3)).accesses ∧
      (applyOps opsExample (LRUCache.empty ℕ ℕ 3)).stats.hit_ratio =
        ((applyOps opsExample (LRUCache.empty ℕ ℕ 3)).hits : ℚ) /
          ((applyOps opsExample (LRUCache.empty ℕ ℕ 3)).accesses : ℚ) :=
  ⟨by decide,
   ((cache_stats_law ℕ ℕ 3).2.2.2 (applyOps opsExample (LRUCache.empty ℕ ℕ 3))).1
     (by decide)⟩

/-! ### Claim theorems: the scheduler (C5) -/

theorem tupleLE_trans (a b c : ℕ × ℕ) (h1 : tupleLE a b = true)
    (h2 : tupleLE b c = true) : tupleLE a c = true := by
  simp [tupleLE] at *
  omega

theorem tupleLE_total (a b : ℕ × ℕ) : (tupleLE a b || tupleLE b a) = true := by
  simp [tupleLE]
  omega

theorem tupleLE_of_eq {a b : ℕ × ℕ} (h : a = b) : tupleLE a b = true := by
  subst h
  simp [tupleLE]

/-- C5: `order_urls(urls, "priority")` is a permutation of the input,
sorted ascending by the `_priority_score` key `(pathDepth + 2·hasQuery,
urlLength)` under the lexicographic tuple order, with ties kept in input
order (stability); `order_urls(urls, "fifo")` returns the input unchanged.
Both modes are pure Lean functions, hence deterministic, and neither adds
nor drops URLs (the permutation). -/
theorem order_urls_spec (urls : List Url) :
    List.Perm (order_urls urls "priority") urls
    ∧ (order_urls urls "priority").Pairwise
        (fun a b => tupleLE (priority_score a) (priority_score b) = true)
    ∧ (∀ a b : Url, List.Sublist [a, b] urls →
        priority_score a = priority_score b →
        List.Sublist [a, b] (order_urls urls "priority"))
    ∧ order_urls urls "fifo" = urls := by
  have hp : order_urls urls "priority" =
      urls.mergeSort (fun a b => tupleLE (priority_score a) (priority_score b)) := rfl
  have trans : ∀ a b c : Url,
      tupleLE (priority_score a) (priority_score b) →
      tupleLE (priority_score b) (priority_score c) →
      tupleLE (priority_score a) (priority_score c) := by
    intro a b c h1 h2
    exact tupleLE_trans _ _ _ h1 h2
  have total : ∀ a b : Url,
      (tupleLE (priority_score a) (priority_score b) ||
        tupleLE (priority_score b) (priority_score a)) = true := by
    intro a b
    exact tupleLE_total _ _
  refine ⟨?_, ?_, ?_, rfl⟩
  · rw [hp]
    exact List.mergeSort_perm urls _
  · rw [hp]
    exact List.sorted_mergeSort trans total urls
  · intro a b hsub hsc
    rw [hp]
    exact List.pair_sublist_mergeSort trans total (tupleLE_of_eq (by rw [hsc])) hsub

/-- Example URLs with equal priority scores, used by the C5 witness. -/
def exUrlP1 : Url := ⟨"https://a.edu/x", "https", "a.edu", "/x", "", ""⟩

/-- Second example URL with the same priority score as `exUrlP1`. -/
def exUrlP2 : Url := ⟨"https://b.edu/y", "https", "b.edu", "/y", "", ""⟩

/-- Witness for C5: two equal-score URLs keep their input order under
priority sorting. -/
theorem order_urls_spec_w :
    priority_score exUrlP1 = priority_score exUrlP2 ∧
      List.Sublist [exUrlP1, exUrlP2] (order_urls [exUrlP1, exUrlP2] "priority") :=
  ⟨by decide,
   (order_urls_spec [exUrlP1, exUrlP2]).2.2.1 exUrlP1 exUrlP2
     (List.Sublist.refl _) (by decide)⟩

/-! ### Supporting lemmas about `check_link` -/

theorem check_link_none (url : Url) (net : HttpOutcome) (cfg : CheckerCfg) :
    check_link url net cfg none =
      (classify_response cfg.treat_redirect_as_ok net, none, true) := rfl

theorem check_link_some (url : Url) (net : HttpOutcome) (cfg : CheckerCfg)
    (c : LRUCache String CheckResult) :
    check_link url net cfg (some c) =
      match c.get (norm_link_target url) with
      | (some cached, c1) => (cached, some c1, false)
      | (none, c1) =>
          (classify_response cfg.treat_redirect_as_ok net,
           some (c1.set (norm_link_target url)
             (classify_response cfg.treat_redirect_as_ok net)),
           true) := rfl

theorem check_link_hit (url : Url) (net : HttpOutcome) (cfg : CheckerCfg)
    (c : LRUCache String CheckResult) (r : CheckResult)
    (h : lookupKey (norm_link_target url) c.store = some r) :
    (check_link url net cfg (some c)).1 = r ∧
      (check_link url net cfg (some c)).2.2 = false ∧
      (check_link url net cfg (some c)).2.1 =
        some ((c.get (norm_link_target url)).2) := by
  have h1 : (c.get (norm_link_target url)).1 = some r :=
    (LRUCache.get_promotes c _ r h).1
  rw [check_link_some]
  rw [show c.get (norm_link_target url) =
        (some r, (c.get (norm_link_target url)).2) from by
      rw [← h1]]
  exact ⟨rfl, rfl, rfl⟩

theorem check_link_miss (url : Url) (net : HttpOutcome) (cfg : CheckerCfg)
    (c : LRUCache String CheckResult)
    (h : lookupKey (norm_link_target url) c.store = none) :
    check_link url net cfg (some c) =
      (classify_response cfg.treat_redirect_as_ok net,
       some (((c.get (norm_link_target url)).2).set (norm_link_target url)
         (classify_response cfg.treat_redirect_as_ok net)),
       true) := by
  have h1 : (c.get (norm_link_target url)).1 = none :=
    (LRUCache.get_of_lookup_none c _ h).1
  rw [check_link_some]
  rw [show c.get (norm_link_target url) =
        (none, (c.get (norm_link_target url)).2) from by
      rw [← h1]]

theorem check_link_result_of_net (url : Url) (net : HttpOutcome)
    (cfg : CheckerCfg) (cache : Option (LRUCache String CheckResult))
    (h : (check_link url net cfg cache).2.2 = true) :
    (check_link url net cfg cache).1 =
      classify_response cfg.treat_redirect_as_ok net := by
  cases cache with
  | none => rfl
  | some c =>
    rcases hl : lookupKey (norm_link_target url) c.store with _ | r
    · rw [check_link_miss url net cfg c hl]
    · have hfalse := (check_link_hit url net cfg c r hl).2.1
      rw [hfalse] at h
      cases h

theorem lookupKey_set_self_of_miss (c : LRUCache String CheckResult)
    (k : String) (v : CheckResult)
    (hmiss : lookupKey k c.store = none) (hpos : 0 < c.max_size) :
    lookupKey k (c.set k v).store = some v := by
  rw [LRUCache.set_store_of_lookup_none c k v hmiss]
  split
  · next hgt =>
    cases cs : c.store with
    | nil =>
      rw [cs] at hgt
      simp at hgt
      omega
    | cons a t =>
      have hmiss2 : lookupKey k (a :: t) = none := cs ▸ hmiss
      have ht : lookupKey k t = none :=
        lookupKey_tail_of_none (s := a :: t) hmiss2
      simp only [List.cons_append, List.tail_cons]
      rw [lookupKey_append_of_none ht]
      simp
  · next hgt =>
    rw [lookupKey_append_of_none hmiss]
    simp

/-! ### Claim theorems: `check_link` (C1, C3) -/

/-- C1: whenever `check_link` actually issues the HTTP request, the
returned 4-tuple is classified by the HTTP outcome: status ≥ 400 →
`("broken_link", status, finalURL, "status>=400")`; 300 ≤ status < 400 →
`"ok"`/`"redirect ok"` under `treat_redirect_as_ok` and
`"broken_link"`/`"redirect treated as broken"` otherwise; any other status
→ `"ok"` with note `"ok"`, or the redirect-chain length when the response
passed through redirects; and a transport failure yields
`("broken_link", "", "", "<errorKind>: <message truncated to ≤ 120
characters>")` — the failure is absorbed into the returned tuple, never
propagated. -/
theorem check_link_classification (url : Url) (net : HttpOutcome)
    (cfg : CheckerCfg) (cache : Option (LRUCache String CheckResult))
    (hnet : (check_link url net cfg cache).2.2 = true) :
    (∀ status finalUrl hist, net = .success status finalUrl hist →
        (400 ≤ status →
          (check_link url net cfg cache).1 =
            ⟨"broken_link", .code status, finalUrl, "status>=400"⟩)
        ∧ (300 ≤ status → status < 400 →
          (check_link url net cfg cache).1 =
            (if cfg.treat_redirect_as_ok then
              ⟨"ok", .code status, finalUrl, "redirect ok"⟩
             else
              ⟨"broken_link", .code status, finalUrl,
                "redirect treated as broken"⟩))
        ∧ (status < 300 →
          (check_link url net cfg cache).1 =
            ⟨"ok", .code status, finalUrl,
              if hist ≠ 0 then "redirect chain len=" ++ toString hist
              else "ok"⟩))
    ∧ (∀ errKind msg, net = .failure errKind msg →
        (check_link url net cfg cache).1 =
          ⟨"broken_link", .empty, "", errKind ++ ": " ++ pyTruncate 120 msg⟩
        ∧ (pyTruncate 120 msg).length ≤ 120) := by
  constructor
  · intro status finalUrl hist hn
    subst hn
    rw [check_link_result_of_net url _ cfg cache hnet]
    refine ⟨?_, ?_, ?_⟩
    · intro h4
      simp only [classify_response]
      rw [if_pos (by omega)]
    · intro h3 h4
      simp only [classify_response]
      rw [if_neg (by omega), if_pos ⟨h3, h4⟩]
    · intro h3
      simp only [classify_response]
      rw [if_neg (by omega), if_neg (by omega)]
  · intro errKind msg hn
    subst hn
    rw [check_link_result_of_net url _ cfg cache hnet]
    refine ⟨rfl, ?_⟩
    show (msg.data.take 120).length ≤ 120
    simp

/-- Example URL used by the C1 witness. -/
def exUrlA : Url := ⟨"https://e.edu/p", "https", "e.edu", "/p", "", ""⟩

/-- Witness for C1: a concrete transport failure is returned as a
`broken_link` tuple with empty status and truncated note. -/
theorem check_link_classification_w :
    (check_link exUrlA (.failure "ConnectionError" "boom") {} none).2.2 = true ∧
      (check_link exUrlA (.failure "ConnectionError" "boom") {} none).1 =
        ⟨"broken_link", .empty, "",
          "ConnectionError" ++ ": " ++ pyTruncate 120 "boom"⟩ :=
  ⟨rfl,
   ((check_link_classification exUrlA (.failure "ConnectionError" "boom") {}
       none rfl).2 "ConnectionError" "boom" rfl).1⟩

/-- C3: the cache key drops query and fragment (URLs equal up to
query/fragment share one key); a cache hit is returned verbatim with no
HTTP request; a cache miss issues the request and stores the computed
tuple under the key before returning; consequently a second check of any
query-variant of an already-checked target is served from the cache with
no HTTP request. -/
theorem cache_key_collapse (cfg : CheckerCfg) :
    (∀ u1 u2 : Url, u1.scheme = u2.scheme → u1.netloc = u2.netloc →
        u1.path = u2.path → norm_link_target u1 = norm_link_target u2)
    ∧ (∀ (url : Url) (net : HttpOutcome) (c : LRUCache String CheckResult)
        (r : CheckResult), lookupKey (norm_link_target url) c.store = some r →
        (check_link url net cfg (some c)).1 = r ∧
          (check_link url net cfg (some c)).2.2 = false)
    ∧ (∀ (url : Url) (net : HttpOutcome) (c : LRUCache String CheckResult),
        lookupKey (norm_link_target url) c.store = none → 0 < c.max_size →
        (check_link url net cfg (some c)).2.2 = true ∧
          ∃ c2, (check_link url net cfg (some c)).2.1 = some c2 ∧
            lookupKey (norm_link_target url) c2.store =
              some (check_link url net cfg (some c)).1)
    ∧ (∀ (u1 u2 : Url) (net1 net2 : HttpOutcome)
        (c : LRUCache String CheckResult),
        u1.scheme = u2.scheme → u1.netloc = u2.netloc → u1.path = u2.path →
        lookupKey (norm_link_target u1) c.store = none → 0 < c.max_size →
        ∃ c1, (check_link u1 net1 cfg (some c)).2.1 = some c1 ∧
          (check_link u2 net2 cfg (some c1)).1 =
            (check_link u1 net1 cfg (some c)).1 ∧
          (check_link u2 net2 cfg (some c1)).2.2 = false) := by
  have hkey : ∀ u1 u2 : Url, u1.scheme = u2.scheme → u1.netloc = u2.netloc →
      u1.path = u2.path → norm_link_target u1 = norm_link_target u2 := by
    intro u1 u2 h1 h2 h3
    unfold norm_link_target
    rw [h1, h2, h3]
  have hmiss_store : ∀ (url : Url) (net : HttpOutcome)
      (c : LRUCache String CheckResult),
      lookupKey (norm_link_target url) c.store = none → 0 < c.max_size →
      (check_link url net cfg (some c)).2.2 = true ∧
        ∃ c2, (check_link url net cfg (some c)).2.1 = some c2 ∧
          lookupKey (norm_link_target url) c2.store =
            some (check_link url net cfg (some c)).1 := by
    intro url net c hm hpos
    rw [check_link_miss url net cfg c hm]
    refine ⟨rfl, _, rfl, ?_⟩
    have hstore : ((c.get (norm_link_target url)).2).store = c.store :=
      (LRUCache.get_of_lookup_none c _ hm).2
    have hmax : ((c.get (norm_link_target url)).2).max_size = c.max_size :=
      LRUCache.get_max_size c _
    exact lookupKey_set_self_of_miss ((c.get (norm_link_target url)).2) _ _
      (by rw [hstore]; exact hm) (by rw [hmax]; exact hpos)
  refine ⟨hkey, ?_, hmiss_store, ?_⟩
  · intro url net c r h
    obtain ⟨h1, h2, _⟩ := check_link_hit url net cfg c r h
    exact ⟨h1, h2⟩
  · intro u1 u2 net1 net2 c h1 h2 h3 hm hpos
    obtain ⟨_, c1, hc1, hstored⟩ := hmiss_store u1 net1 c hm hpos
    refine ⟨c1, hc1, ?_⟩
    have hk := hkey u1 u2 h1 h2 h3
    have hstored2 : lookupKey (norm_link_target u2) c1.store =
        some (check_link u1 net1 cfg (some c)).1 := by
      rw [← hk]
      exact hstored
    obtain ⟨hr, hf, _⟩ :=
      check_link_hit u2 net2 cfg c1 (check_link u1 net1 cfg (some c)).1 hstored2
    exact ⟨hr, hf⟩

/-- Query-variant example URL (query `x=1`) used by the C3 witness. -/
def exUrlQ1 : Url := ⟨"https://e.edu/p?x=1", "https", "e.edu", "/p", "x=1", ""⟩

/-- Query-variant example URL (query `x=2`) used by the C3 witness. -/
def exUrlQ2 : Url := ⟨"https://e.edu/p?x=2", "https", "e.edu", "/p", "x=2", ""⟩

/-- Witness for C3: after checking `…/p?x=1` against a fresh cache, a check
of `…/p?x=2` is served from the cache (same tuple, no HTTP request), even
though the network oracle would answer differently. -/
theorem cache_key_collapse_w :
    norm_link_target exUrlQ1 = norm_link_target exUrlQ2 ∧
      ∃ c1,
        (check_link exUrlQ1 (.success 404 "https://e.edu/p" 0) {}
          (some (LRUCache.empty String CheckResult 10))).2.1 = some c1 ∧
        (check_link exUrlQ2 (.success 200 "https://e.edu/p" 0) {}
          (some c1)).1 =
          (check_link exUrlQ1 (.success 404 "https://e.edu/p" 0) {}
            (some (LRUCache.empty String CheckResult 10))).1 ∧
        (check_link exUrlQ2 (.success 200 "https://e.edu/p" 0) {}
          (some c1)).2.2 = false :=
  ⟨(cache_key_collapse {}).1 exUrlQ1 exUrlQ2 rfl rfl rfl,
   (cache_key_collapse {}).2.2.2 exUrlQ1 exUrlQ2
     (.success 404 "https://e.edu/p" 0) (.success 200 "https://e.edu/p" 0)
     (LRUCache.empty String CheckResult 10) rfl rfl rfl rfl (by decide)⟩

/-! ### Claim theorems: cascade-login classification (C6, C10) -/

theorem is_cascade_login_iff (url : String) (patterns : List String) :
    is_cascade_login url patterns = true ↔
      ∃ p, p ∈ patterns ∧ ¬(p = "") ∧
        pyContains (pyLower url) (pyLower p) = true := by
  unfold is_cascade_login
  by_cases hp : patterns = []
  · subst hp
    simp
  · rw [if_neg hp, List.any_eq_true]
    constructor
    · rintro ⟨p, hmem, hpred⟩
      simp only [Bool.and_eq_true, Bool.not_eq_true', decide_eq_false_iff_not] at hpred
      exact ⟨p, hmem, hpred.1, hpred.2⟩
    · rintro ⟨p, hmem, hne, hc⟩
      exact ⟨p, hmem, by simp [hne, hc]⟩

/-- Example in-scope link used by the C6 counterexample. -/
def exLinkC : Url := ⟨"https://e.edu/page", "https", "e.edu", "/page", "", ""⟩

/-- C6 counterexample: with the configured pattern list `[""]`, the link
`https://e.edu/page` contains the configured pattern (the empty string is a
substring of every URL, case-insensitively), yet the worker does not
classify it as `cascade_login` (no violation row) and does invoke
`check_link` for it. -/
theorem cascade_login_claim_cex :
    pyContains (pyLower exLinkC.raw) (pyLower "") = true ∧
      ("" : String) ∈ [""] ∧
      is_cascade_login exLinkC.raw [""] = false ∧
      (process_link "p" exLinkC [""] {} (.success 200 "f" 0) none).2.2 = true ∧
      (process_link "p" exLinkC [""] {} (.success 200 "f" 0) none).1 = [] := by
  decide

/-- C6 (amended): for an in-scope HTTP(S) link containing
(case-insensitively) a **non-empty** configured cascade-login substring
pattern, the worker classifies the link as `cascade_login` immediately:
exactly one violation row of kind `cascade_login` is appended for the
link, `check_link` is never invoked, and the cache is untouched — the
pattern check precedes the broken-link HTTP check. -/
theorem cascade_login_short_circuit (page : String) (link : Url)
    (patterns : List String) (cfg : CheckerCfg) (net : HttpOutcome)
    (cache : Option (LRUCache String CheckResult))
    (hscheme : link.scheme = "http" ∨ link.scheme = "https")
    (p : String) (hp : p ∈ patterns) (hne : ¬(p = ""))
    (hc : pyContains (pyLower link.raw) (pyLower p) = true) :
    process_link page link patterns cfg net cache =
      ([⟨page, link.raw, "cascade_login", .empty, "", "cascade login link"⟩],
       cache, false) := by
  have hcas : is_cascade_login link.raw patterns = true :=
    (is_cascade_login_iff link.raw patterns).mpr ⟨p, hp, hne, hc⟩
  unfold process_link
  rw [if_neg (not_not_intro hscheme), if_pos hcas]

/-- Example login link used by the C6 witness. -/
def exLinkL : Url :=
  ⟨"https://e.edu/CAS/login?svc=1", "https", "e.edu", "/CAS/login", "svc=1", ""⟩

/-- Witness for C6 (amended): a concrete link matching the non-empty
pattern `"cas/login"` is classified `cascade_login` with no `check_link`
call. -/
theorem cascade_login_short_circuit_w :
    ("cas/login" : String) ∈ ["cas/login"] ∧ ¬(("cas/login" : String) = "") ∧
      pyContains (pyLower exLinkL.raw) (pyLower "cas/login") = true ∧
      process_link "p" exLinkL ["cas/login"] {} (.success 200 "f" 0) none =
        ([⟨"p", exLinkL.raw, "cascade_login", .empty, "", "cascade login link"⟩],
         none, false) :=
  ⟨by decide, by decide, by decide,
   cascade_login_short_circuit "p" exLinkL ["cas/login"] {}
     (.success 200 "f" 0) none (Or.inr rfl) "cas/login" (by decide) (by decide)
     (by decide)⟩

/-- C10: `is_cascade_login` returns `False` on an empty pattern list;
it matches exactly when some non-empty configured pattern is contained
case-insensitively in the URL (empty-string patterns are skipped, so they
never cause a match); hence a configuration with no non-empty pattern
never classifies any link as `cascade_login`. -/
theorem is_cascade_login_empty_patterns :
    (∀ url : String, is_cascade_login url [] = false)
    ∧ (∀ (url : String) (patterns : List String),
        is_cascade_login url patterns = true ↔
          ∃ p, p ∈ patterns ∧ ¬(p = "") ∧
            pyContains (pyLower url) (pyLower p) = true)
    ∧ (∀ (url : String) (patterns : List String),
        (∀ p ∈ patterns, p = "") → is_cascade_login url patterns = false) := by
  refine ⟨?_, is_cascade_login_iff, ?_⟩
  · intro url
    rfl
  · intro url patterns hall
    cases h : is_cascade_login url patterns with
    | false => rfl
    | true =>
      obtain ⟨p, hm, hne, _⟩ := (is_cascade_login_iff url patterns).mp h
      exact absurd (hall p hm) hne

/-- Witness for C10: a pattern list of two empty strings never matches. -/
theorem is_cascade_login_empty_patterns_w :
    (∀ p ∈ ([""] ++ [""]), p = "") ∧
      is_cascade_login "https://e.edu/x" ([""] ++ [""]) = false :=
  ⟨by decide,
   is_cascade_login_empty_patterns.2.2 "https://e.edu/x" ([""] ++ [""])
     (by decide)⟩

/-! ### Claim theorems: per-page cap before checking (C8) -/

theorem process_link_link_url (page : String) (link : Url)
    (patterns : List String) (cfg : CheckerCfg) (net : HttpOutcome)
    (cache : Option (LRUCache String CheckResult)) :
    ∀ v ∈ (process_link page link patterns cfg net cache).1,
      v.link_url = link.raw := by
  intro v hv
  by_cases h1 : ¬(link.scheme = "http" ∨ link.scheme = "https")
  · simp [process_link, h1] at hv
  · by_cases h2 : is_cascade_login link.raw patterns = true
    · simp [process_link, h1, h2] at hv
      rw [hv]
    · by_cases h3 : (check_link link net cfg cache).1.verdict = "broken_link"
      · simp [process_link, h1, h2, h3] at hv
        rw [hv]
      · simp [process_link, h1, h2, h3] at hv

theorem foldl_pageStep_link_urls (page : String) (patterns : List String)
    (cfg : CheckerCfg) (oracle : Url → HttpOutcome) :
    ∀ (links : List Url)
      (acc : List ViolationRow × Option (LRUCache String CheckResult)),
      ∀ v ∈ (links.foldl (pageStep page patterns cfg oracle) acc).1,
        v ∈ acc.1 ∨ v.link_url ∈ links.map Url.raw := by
  intro links
  induction links with
  | nil =>
    intro acc v hv
    left
    simpa using hv
  | cons l rest ih =>
    intro acc v hv
    have hstep := ih (pageStep page patterns cfg oracle acc l) v
      (by simpa [List.foldl] using hv)
    rcases hstep with hin | hin
    · rcases List.mem_append.mp (by simpa [pageStep] using hin) with h | h
      · left
        exact h
      · right
        simp only [List.map_cons, List.mem_cons]
        left
        exact process_link_link_url page l patterns cfg (oracle l) acc.2 v h
    · right
      simp only [List.map_cons, List.mem_cons]
      right
      exact hin

theorem capped_links_of_over (links : List Url) (max_links : Nat)
    (h1 : max_links ≠ 0) (h2 : links.length > max_links) :
    capped_links links max_links = links.take max_links := by
  unfold capped_links
  rw [if_pos ⟨h1, h2⟩]

theorem capped_links_take_self (links : List Url) (max_links : Nat)
    (h2 : links.length > max_links) :
    capped_links (links.take max_links) max_links = links.take max_links := by
  unfold capped_links
  rw [if_neg]
  rintro ⟨-, hgt⟩
  rw [List.length_take] at hgt
  omega

/-- Network oracle answering 404 to every link (used by the C8 undercount
instance). -/
def oracle404 : Url → HttpOutcome := fun _ => .success 404 "f" 0

/-- First example link of the C8 undercount instance. -/
def exLinkB1 : Url := ⟨"https://e.edu/a", "https", "e.edu", "/a", "", ""⟩

/-- Second example link of the C8 undercount instance. -/
def exLinkB2 : Url := ⟨"https://e.edu/b", "https", "e.edu", "/b", "", ""⟩

/-- C8: the page pipeline reports `internal_links_found` from the
full, pre-truncation extraction; the violation loop sees only the first
`max_links_per_page` links (violation rows can only name capped links, and
the whole page outcome depends only on the capped prefix); and on a
concrete link-heavy page the capped `violations_count` (1) undercounts
relative to `internal_links_found` (2), the uncapped count. -/
theorem cap_then_check (page : String) (info : ExtractionInfo)
    (max_links : Nat) (patterns : List String) (cfg : CheckerCfg)
    (oracle : Url → HttpOutcome)
    (cache : Option (LRUCache String CheckResult)) :
    (process_page page info max_links patterns cfg oracle cache).1.link_count
        = info.count
    ∧ (∀ v ∈ (process_page page info max_links patterns cfg oracle
          cache).1.violations,
        v.link_url ∈ (capped_links info.links max_links).map Url.raw)
    ∧ (max_links ≠ 0 → info.links.length > max_links →
        process_page page info max_links patterns cfg oracle cache =
          process_page page ⟨info.links.take max_links, info.count⟩ max_links
            patterns cfg oracle cache)
    ∧ ((process_page "p" ⟨[exLinkB1, exLinkB2], 2⟩ 1 [] {} oracle404
          none).1.violations_count = 1
        ∧ (process_page "p" ⟨[exLinkB1, exLinkB2], 2⟩ 0 [] {} oracle404
            none).1.violations_count = 2
        ∧ (process_page "p" ⟨[exLinkB1, exLinkB2], 2⟩ 1 [] {} oracle404
            none).1.link_count = 2) := by
  refine ⟨rfl, ?_, ?_, by decide, by decide, by decide⟩
  · intro v hv
    have h := foldl_pageStep_link_urls page patterns cfg oracle
      (capped_links info.links max_links) ([], cache) v hv
    rcases h with h | h
    · simp at h
    · exact h
  · intro h1 h2
    unfold process_page
    simp only [capped_links_of_over info.links max_links h1 h2,
      capped_links_take_self info.links max_links h2]

/-- Witness for C8: on the two-link page with cap 1, the pipeline output
equals the output on the page truncated to its first link. -/
theorem cap_then_check_w :
    (1 : Nat) ≠ 0 ∧ ([exLinkB1, exLinkB2] : List Url).length > 1 ∧
      process_page "p" ⟨[exLinkB1, exLinkB2], 2⟩ 1 [] {} oracle404 none =
        process_page "p" ⟨([exLinkB1, exLinkB2] : List Url).take 1, 2⟩ 1 []
          {} oracle404 none :=
  ⟨by decide, by decide,
   (cap_then_check "p" ⟨[exLinkB1, exLinkB2], 2⟩ 1 [] {} oracle404
       none).2.2.1 (by decide) (by decide)⟩

/-! ### Claim theorems: redirect collapse (C4) and the recording section (C9) -/

/-- C4 counterexample: at request URL = final URL (equal comparison forms)
and raw status `301`, the code reports `301`, so "the reported status is
301 only if the normalized forms differ" is false — the reported `301`
here coexists with equal normalized forms. -/
theorem report_status_claim_cex :
    ¬ (report_status exUrlA exUrlA 301 = 301 →
        norm_url exUrlA ≠ norm_url exUrlA) := by
  intro h
  exact h (by simp [report_status]) rfl

/-- C4 (amended): the reported status is `301` whenever the
comparison-normalized request and final URLs differ (even when the raw
status was `200`), and equals the raw HTTP status whenever the normalized
forms are equal (so a raw `301` is reported as `301` even with equal
forms, which is the one exception to the claim's "if and only if"). -/
theorem report_status_amended (u f : Url) (raw : Nat) :
    (norm_url u ≠ norm_url f → report_status u f raw = 301)
    ∧ (norm_url u = norm_url f → report_status u f raw = raw) := by
  constructor
  · intro h
    simp [report_status, h]
  · intro h
    simp [report_status, h]

/-- Example final URL (differing path) used by the C4 witness. -/
def exUrlB : Url := ⟨"https://e.edu/q", "https", "e.edu", "/q", "", ""⟩

/-- Witness for C4 (amended): differing normalized forms with raw status
`200` are reported as `301`. -/
theorem report_status_amended_w :
    norm_url exUrlA ≠ norm_url exUrlB ∧ report_status exUrlA exUrlB 200 = 301 :=
  ⟨by decide, (report_status_amended exUrlA exUrlB 200).1 (by decide)⟩

/-- C9 counterexample: in the recording section the `results.append` of
the PageResult row is performed under no lock at all — there is no
"results lock" in the code — refuting "every append of a PageResult row
happens while holding that list's dedicated lock". -/
theorem results_append_no_lock_cex :
    (RecordAction.appendResultRow, (none : Option CrawlLock)) ∈
        recording_section true
      ∧ ∀ l : CrawlLock,
          (RecordAction.appendResultRow, some l) ∉ recording_section true := by
  refine ⟨by decide, ?_⟩
  intro l
  cases l <;> decide

/-- C9 (amended): in the recording section of `_worker`, violation
rows are appended while holding `violock` and the shared processed counter
is incremented and read while holding `plock`, but the PageResult row is
appended to the shared results list without holding any lock. -/
theorem recording_section_locks (b : Bool) :
    ∀ e ∈ recording_section b,
      (e.1 = RecordAction.appendViolationRows → e.2 = some CrawlLock.violock)
      ∧ (e.1 = RecordAction.incrementProcessed → e.2 = some CrawlLock.plock)
      ∧ (e.1 = RecordAction.appendResultRow → e.2 = none) := by
  cases b <;> decide

/-- Witness for C9 (amended): the counter increment event of a recording
section with violations carries `plock`. -/
theorem recording_section_locks_w :
    (RecordAction.incrementProcessed, some CrawlLock.plock) ∈
        recording_section true
      ∧ ((RecordAction.incrementProcessed, some CrawlLock.plock) :
          RecordAction × Option CrawlLock).2 = some CrawlLock.plock :=
  ⟨by decide,
   (recording_section_locks true
       (RecordAction.incrementProcessed, some CrawlLock.plock)
       (by decide)).2.1 rfl⟩

end LinkChecker
